import Mathlib

/-!
# Verification of the Monte Carlo π benchmark (`src/main.py`)

Shallow embedding of the benchmark core of the repository: the sampler
`work_chunk`, the per-configuration runner `run_pi_estimate`, and the grid
loop `benchmark`.

Modelling decisions, all taken from the source:

* The pseudo-random source `np.random.default_rng(seed)` is modelled as an
  explicit parameter `rng : Rng`, a function from a seed and a draw index to
  a rational in `[0,1)`.  `work_chunk` first draws the `x` array (draw
  indices `0 .. n-1`) and then the `y` array (draw indices `n .. 2n-1`),
  exactly as the source calls `rng.random(n_samples)` twice.
* Python floats are modelled as `ℚ`; Python `//` and `%` (floor division)
  are `Int.fdiv` / `Int.fmod`.
* Python exceptions are modelled with `Except PyErr`.  `ValueError` is
  Python's invalid-argument exception: `np.random.default_rng(seed)` raises
  `ValueError: expected non-negative seed` for a negative seed (before
  anything is drawn), `rng.random(n)` raises
  `ValueError: negative dimensions are not allowed` for a negative sample
  count, and `ThreadPoolExecutor` raises
  `ValueError: max_workers must be greater than 0` for a non-positive pool
  size.  `total_samples // num_threads` and the final
  `4.0 * hits / total_samples` raise `ZeroDivisionError` when the divisor
  is zero.
* Wall-clock time and resident-memory probes are environmental observations
  with no influence on the computed estimate; they are not part of the
  embedded state.
-/

namespace LoadMonitor

/-- A seeded pseudo-random source: `rng seed i` is the `i`-th value the
generator initialised with `seed` produces, a rational in `[0,1)`.
Models `np.random.default_rng(seed)` from `src/main.py`. -/
abbrev Rng := Int → Nat → ℚ

/-- The Python exceptions the benchmark core can raise. -/
inductive PyErr where
  | valueError : String → PyErr
  | zeroDivisionError : PyErr
deriving DecidableEq, Repr

/-- `work_chunk(n_samples, seed)` from `src/main.py` lines 138-146:
draw `n_samples` points `(x_i, y_i)` from the generator seeded with `seed`
and count how many satisfy `x*x + y*y <= 1.0`.
`np.random.default_rng(seed)` (line 142) raises `ValueError` for a
negative seed before anything is drawn; after that, `rng.random(n)`
raises `ValueError` for negative `n`. -/
def work_chunk (rng : Rng) (n_samples : Int) (seed : Int) : Except PyErr Nat :=
  if seed < 0 then
    .error (.valueError "expected non-negative seed")
  else if n_samples < 0 then
    .error (.valueError "negative dimensions are not allowed")
  else
    .ok ((List.range n_samples.toNat).countP (fun i =>
      decide (rng seed i * rng seed i +
              rng seed (n_samples.toNat + i) * rng seed (n_samples.toNat + i) ≤ 1)))

/-- The sequence of values `work_chunk` reads from its random source:
`rng.random(n)` twice, i.e. draws `0 .. 2n-1`; nothing is drawn when the
call raises on a negative seed or a negative count. -/
def work_chunk_draws (rng : Rng) (n_samples : Int) (seed : Int) : List ℚ :=
  if seed < 0 then []
  else if n_samples < 0 then []
  else (List.range (2 * n_samples.toNat)).map (rng seed)

/-- The batches `run_pi_estimate` submits (lines 158-161): worker `i` gets
`total_samples // num_threads` samples plus one if `i < remainder`, and
seed `1234 + i`. -/
def batches (total_samples : Int) (num_threads : Nat) : List (Int × Int) :=
  (List.range num_threads).map (fun (i : Nat) =>
    (total_samples.fdiv (num_threads : Int) +
       (if (i : Int) < total_samples.fmod (num_threads : Int) then 1 else 0),
     1234 + (i : Int)))

/-- The per-worker sample counts of a configuration. -/
def batch_sizes (total_samples : Int) (num_threads : Nat) : List Int :=
  (batches total_samples num_threads).map Prod.fst

/-- `hits = sum(f.result() for f in futures)` (line 163): collect each
worker's result in submission order and sum; the first worker exception
propagates. -/
def collect_hits (rng : Rng) : List (Int × Int) → Except PyErr Nat
  | [] => .ok 0
  | b :: rest =>
    match work_chunk rng b.1 b.2 with
    | .error e => .error e
    | .ok h =>
      match collect_hits rng rest with
      | .error e => .error e
      | .ok hs => .ok (h + hs)

/-- The batches actually handed to the thread pool, or `none` when
`run_pi_estimate` raises before any worker is dispatched
(`total_samples // 0` at line 150 for `num_threads = 0`, or
`ThreadPoolExecutor(max_workers=num_threads)` at line 155 for a negative
`num_threads`). -/
def dispatched_batches (total_samples num_threads : Int) : Option (List (Int × Int)) :=
  if num_threads ≤ 0 then none
  else some (batches total_samples num_threads.toNat)

/-- The aggregated hit total of `run_pi_estimate(total_samples, num_threads)`
(lines 149-163), up to the point where `hits` is bound. -/
def run_hits (rng : Rng) (total_samples num_threads : Int) : Except PyErr Nat :=
  if num_threads = 0 then .error .zeroDivisionError
  else if num_threads < 0 then .error (.valueError "max_workers must be greater than 0")
  else collect_hits rng (batches total_samples num_threads.toNat)

/-- `run_pi_estimate(total_samples, num_threads)` from `src/main.py` lines
149-168, returning the estimate `4.0 * hits / total_samples`.  The division
raises `ZeroDivisionError` when `total_samples = 0`.  The elapsed wall-clock
time the source also returns is environmental and not modelled. -/
def run_pi_estimate (rng : Rng) (total_samples num_threads : Int) : Except PyErr ℚ :=
  match run_hits rng total_samples num_threads with
  | .error e => .error e
  | .ok hits =>
    if total_samples = 0 then .error .zeroDivisionError
    else .ok (4 * (hits : ℚ) / (total_samples : ℚ))

/-- The grid cells of `benchmark` (lines 179-180): outer loop over sample
sizes, inner loop over thread counts. -/
def benchmark_cells (sample_sizes thread_counts : List Int) : List (Int × Int) :=
  sample_sizes.flatMap (fun t => thread_counts.map (fun n => (t, n)))

/-- The grid loop of `benchmark` (lines 179-197): run each cell in order and
record its observation.  The loop body has no exception handler, so the
first raising cell aborts the loop: the returned pair is the observations
of the cells completed before the failure, together with the propagated
exception (`none` when every cell succeeds). -/
def benchmark_run (rng : Rng) : List (Int × Int) → List (Int × Int × ℚ) × Option PyErr
  | [] => ([], none)
  | (t, n) :: rest =>
    match run_pi_estimate rng t n with
    | .error e => ([], some e)
    | .ok est =>
        let r := benchmark_run rng rest
        ((t, n, est) :: r.1, r.2)

/-- The hard-coded sample sizes of `benchmark` (line 172). -/
def sample_sizes : List Int :=
  [5000000, 10000000, 20000000, 40000000, 50000000, 100000000]

/-- The hard-coded thread counts of `benchmark` (line 173). -/
def thread_counts : List Int := [1, 2, 4, 8, 16]

/-- `benchmark()` (lines 171-197) over its hard-coded grid. -/
def benchmark (rng : Rng) : List (Int × Int × ℚ) × Option PyErr :=
  benchmark_run rng (benchmark_cells sample_sizes thread_counts)

/-- A concrete random source used to instantiate proved theorems on closed
inputs: draw `i` of seed `s` alternates between `1/2` (a point coordinate
that keeps `x*x+y*y ≤ 1` when paired with itself) and `9/10`. -/
def testRng : Rng := fun _ i => if i % 2 = 0 then 1/2 else 9/10

/-! ## Helper lemmas -/

lemma work_chunk_neg_seed (rng : Rng) (n : ℤ) {seed : ℤ} (hs : seed < 0) :
    work_chunk rng n seed =
      .error (.valueError "expected non-negative seed") := by
  rw [work_chunk, if_pos hs]

lemma work_chunk_of_nonneg (rng : Rng) {n seed : ℤ} (hseed : 0 ≤ seed) (hn : 0 ≤ n) :
    work_chunk rng n seed =
      .ok ((List.range n.toNat).countP (fun i =>
        decide (rng seed i * rng seed i +
                rng seed (n.toNat + i) * rng seed (n.toNat + i) ≤ 1))) := by
  rw [work_chunk, if_neg (not_lt.2 hseed), if_neg (not_lt.2 hn)]

lemma work_chunk_zero_ok (rng : Rng) {seed : ℤ} (hseed : 0 ≤ seed) :
    work_chunk rng 0 seed = .ok 0 := by
  rw [work_chunk_of_nonneg rng hseed le_rfl]
  rfl

lemma work_chunk_ok_le {rng : Rng} {n seed : ℤ} {hits : ℕ}
    (h : work_chunk rng n seed = Except.ok hits) : 0 ≤ n ∧ (hits : ℤ) ≤ n := by
  by_cases hs : seed < 0
  · rw [work_chunk_neg_seed rng n hs] at h
    exact absurd h (by simp)
  · push_neg at hs
    by_cases hn : n < 0
    · rw [work_chunk, if_neg (not_lt.2 hs), if_pos hn] at h
      exact absurd h (by simp)
    · push_neg at hn
      rw [work_chunk_of_nonneg rng hs hn] at h
      injection h with h
      have h2 : hits ≤ n.toNat := by
        rw [← h]
        exact le_trans (List.countP_le_length _) (le_of_eq (List.length_range _))
      exact ⟨hn, by omega⟩

lemma range_map_sum_int (f : ℕ → ℤ) (n : ℕ) :
    ((List.range n).map f).sum = ∑ i in Finset.range n, f i := by
  induction n with
  | zero => simp
  | succ n ih =>
      rw [List.range_succ, List.map_append, List.sum_append, Finset.sum_range_succ, ih]
      simp

lemma sum_ite_lt_int (wc : ℕ) (r : ℤ) :
    (∑ i in Finset.range wc, if (i : ℤ) < r then (1 : ℤ) else 0) = min (max r 0) wc := by
  induction wc with
  | zero => simp
  | succ n ih =>
      rw [Finset.sum_range_succ, ih]
      split <;> push_cast <;> omega

lemma batch_sizes_eq (total : ℤ) (wc : ℕ) :
    batch_sizes total wc = (List.range wc).map (fun (i : ℕ) =>
      total.fdiv (wc : ℤ) + if (i : ℤ) < total.fmod (wc : ℤ) then 1 else 0) := by
  simp only [batch_sizes, batches, List.map_map]
  rfl

lemma batch_sizes_sum (total : ℤ) {wc : ℕ} (hwc : 1 ≤ wc) :
    (batch_sizes total wc).sum = total := by
  have hwc' : (0 : ℤ) < (wc : ℤ) := by exact_mod_cast hwc
  have hr0 : 0 ≤ total.fmod (wc : ℤ) := Int.fmod_nonneg' total hwc'
  have hr1 : total.fmod (wc : ℤ) < (wc : ℤ) := Int.fmod_lt_of_pos total hwc'
  rw [batch_sizes_eq, range_map_sum_int, Finset.sum_add_distrib, sum_ite_lt_int,
      Finset.sum_const, Finset.card_range, nsmul_eq_mul,
      max_eq_left hr0, min_eq_left (le_of_lt hr1)]
  exact Int.fdiv_add_fmod total (wc : ℤ)

lemma batch_sizes_mem {total : ℤ} {wc : ℕ} {a : ℤ} (ha : a ∈ batch_sizes total wc) :
    a = total.fdiv (wc : ℤ) ∨ a = total.fdiv (wc : ℤ) + 1 := by
  rw [batch_sizes_eq] at ha
  simp only [List.mem_map, List.mem_range] at ha
  obtain ⟨i, -, rfl⟩ := ha
  split <;> omega

lemma work_chunk_neg_n (rng : Rng) {n seed : ℤ} (hseed : 0 ≤ seed) (hn : n < 0) :
    work_chunk rng n seed =
      .error (.valueError "negative dimensions are not allowed") := by
  rw [work_chunk, if_neg (not_lt.2 hseed), if_pos hn]

lemma batches_snd_nonneg (total : ℤ) (wc : ℕ) : ∀ b ∈ batches total wc, 0 ≤ b.2 := by
  intro b hb
  simp only [batches, List.mem_map, List.mem_range] at hb
  obtain ⟨i, -, rfl⟩ := hb
  dsimp only
  omega

lemma collect_hits_ok_le {rng : Rng} {l : List (ℤ × ℤ)} {hits : ℕ}
    (h : collect_hits rng l = .ok hits) :
    0 ≤ (l.map Prod.fst).sum ∧ (hits : ℤ) ≤ (l.map Prod.fst).sum := by
  induction l generalizing hits with
  | nil =>
      simp only [collect_hits] at h
      injection h with h
      subst h
      simp
  | cons b rest ih =>
      simp only [collect_hits] at h
      cases hwc : work_chunk rng b.1 b.2 with
      | error e => rw [hwc] at h; exact absurd h (by simp)
      | ok hb =>
          rw [hwc] at h
          cases hr : collect_hits rng rest with
          | error e => rw [hr] at h; exact absurd h (by simp)
          | ok hrest =>
              rw [hr] at h
              simp only [Except.ok.injEq] at h
              subst h
              obtain ⟨hn, hble⟩ := work_chunk_ok_le hwc
              obtain ⟨hs0, hsle⟩ := ih hr
              simp only [List.map_cons, List.sum_cons]
              push_cast
              constructor <;> omega

lemma collect_hits_ok_of_nonneg {rng : Rng} {l : List (ℤ × ℤ)}
    (hl : ∀ b ∈ l, 0 ≤ b.1) (hs : ∀ b ∈ l, 0 ≤ b.2) :
    ∃ hits, collect_hits rng l = .ok hits := by
  induction l with
  | nil => exact ⟨0, rfl⟩
  | cons b rest ih =>
      obtain ⟨hrest, hr⟩ := ih (fun x hx => hl x (List.mem_cons_of_mem _ hx))
        (fun x hx => hs x (List.mem_cons_of_mem _ hx))
      have hb0 : 0 ≤ b.1 := hl b (List.mem_cons_self _ _)
      have hb2 : 0 ≤ b.2 := hs b (List.mem_cons_self _ _)
      simp only [collect_hits, work_chunk_of_nonneg rng hb2 hb0, hr]
      exact ⟨_, rfl⟩

lemma collect_hits_zero {rng : Rng} {l : List (ℤ × ℤ)}
    (hl : ∀ b ∈ l, b.1 = 0) (hs : ∀ b ∈ l, 0 ≤ b.2) :
    collect_hits rng l = .ok 0 := by
  induction l with
  | nil => rfl
  | cons b rest ih =>
      have hb2 : 0 ≤ b.2 := hs b (List.mem_cons_self _ _)
      have hwz : work_chunk rng b.1 b.2 = .ok 0 := by
        rw [hl b (List.mem_cons_self _ _)]
        exact work_chunk_zero_ok rng hb2
      have hr := ih (fun x hx => hl x (List.mem_cons_of_mem _ hx))
        (fun x hx => hs x (List.mem_cons_of_mem _ hx))
      simp [collect_hits, hwz, hr]

lemma collect_hits_error_of_neg {rng : Rng} {l : List (ℤ × ℤ)}
    (h : ∃ b ∈ l, b.1 < 0) : ∃ e, collect_hits rng l = .error e := by
  induction l with
  | nil => simp at h
  | cons b rest ih =>
      cases hwc : work_chunk rng b.1 b.2 with
      | error e =>
          simp only [collect_hits, hwc]
          exact ⟨e, rfl⟩
      | ok hb =>
          have hb0 : 0 ≤ b.1 := (work_chunk_ok_le hwc).1
          obtain ⟨x, hx, hxneg⟩ := h
          rcases List.mem_cons.mp hx with rfl | hx'
          · omega
          · obtain ⟨e, he⟩ := ih ⟨x, hx', hxneg⟩
            simp only [collect_hits, hwc, he]
            exact ⟨e, rfl⟩

lemma batches_one (total : ℤ) : batches total 1 = [(total, 1234)] := by
  simp [batches, List.range_succ, Int.fdiv_one, Int.fmod_one]

lemma run_hits_one (rng : Rng) (total : ℤ) :
    run_hits rng total 1 = work_chunk rng total 1234 := by
  rw [run_hits, if_neg (by omega), if_neg (by omega),
      show ((1 : ℤ).toNat) = 1 from rfl, batches_one]
  cases hwc : work_chunk rng total 1234 with
  | error e => simp [collect_hits, hwc]
  | ok h => simp [collect_hits, hwc]

/-! ## Claim theorems -/

/-- **C1.** For every `total_samples ≥ 0` and `worker_count ≥ 1`, the
partitioning of `run_pi_estimate` (base `total_samples // worker_count`
samples per worker plus one extra for each worker index below
`total_samples % worker_count`) produces per-worker sample counts that sum
to exactly `total_samples`, and any two per-worker counts differ by at
most 1. -/
theorem partition_sum_eq_and_spread_le_one (total : ℤ) (wc : ℕ)
    (htotal : 0 ≤ total) (hwc : 1 ≤ wc) :
    (batch_sizes total wc).sum = total ∧
      ∀ a ∈ batch_sizes total wc, ∀ b ∈ batch_sizes total wc, a - b ≤ 1 := by
  refine ⟨batch_sizes_sum total hwc, ?_⟩
  intro a ha b hb
  rcases batch_sizes_mem ha with h1 | h1 <;> rcases batch_sizes_mem hb with h2 | h2 <;> omega

/-- Witness for C1 at the spec's end-to-end scenario `total_samples = 8`,
`worker_count = 3` (partition `[3, 3, 2]`). -/
theorem partition_sum_eq_and_spread_le_one_witness :
    (batch_sizes 8 3).sum = 8 ∧
      ∀ a ∈ batch_sizes 8 3, ∀ b ∈ batch_sizes 8 3, a - b ≤ 1 :=
  partition_sum_eq_and_spread_le_one 8 3 (by decide) (by decide)

/-- Counterexample to C5 as stated: at `n = 3`, `seed = -1` the program
raises `ValueError` at `np.random.default_rng(seed)` (line 142) and
returns no hit count at all. -/
theorem work_chunk_result_in_range_cex :
    work_chunk testRng 3 (-1) =
      .error (.valueError "expected non-negative seed") := rfl

/-- **C5 (amended).** For every `n ≥ 0` and every *non-negative* seed, the
hit count returned by `work_chunk(n, seed)` is an integer in the closed
interval `[0, n]`; for a negative seed the call raises `ValueError` at
`default_rng` before drawing. -/
theorem work_chunk_result_in_range (rng : Rng) (n seed : ℤ)
    (hn : 0 ≤ n) (hseed : 0 ≤ seed) :
    ∃ hits : ℕ, work_chunk rng n seed = .ok hits ∧
      0 ≤ (hits : ℤ) ∧ (hits : ℤ) ≤ n :=
  ⟨_, work_chunk_of_nonneg rng hseed hn, Int.natCast_nonneg _,
    (work_chunk_ok_le (work_chunk_of_nonneg rng hseed hn)).2⟩

/-- Witness for C5 at `n = 8`, `seed = 1234` with the concrete source
`testRng`. -/
theorem work_chunk_result_in_range_witness :
    ∃ hits : ℕ, work_chunk testRng 8 1234 = .ok hits ∧
      0 ≤ (hits : ℤ) ∧ (hits : ℤ) ≤ 8 :=
  work_chunk_result_in_range testRng 8 1234 (by decide) (by decide)

/-- Counterexample to C6 as stated: at `seed = -1` the zero-sample call
does not return 0 — it raises `ValueError` at
`np.random.default_rng(seed)` (line 142). -/
theorem work_chunk_zero_samples_cex :
    work_chunk testRng 0 (-1) =
      .error (.valueError "expected non-negative seed") := rfl

/-- **C6 (amended).** For every *non-negative* seed, `work_chunk(0, seed)`
returns hit count 0 and reads nothing from its random source; for a
negative seed the call raises `ValueError` at `default_rng`. -/
theorem work_chunk_zero_samples (rng : Rng) (seed : ℤ) (hseed : 0 ≤ seed) :
    work_chunk rng 0 seed = .ok 0 ∧ work_chunk_draws rng 0 seed = [] :=
  ⟨work_chunk_zero_ok rng hseed,
    by rw [work_chunk_draws, if_neg (not_lt.2 hseed)]; rfl⟩

/-- Witness for C6 at `seed = 1234`. -/
theorem work_chunk_zero_samples_witness :
    work_chunk testRng 0 1234 = .ok 0 ∧ work_chunk_draws testRng 0 1234 = [] :=
  work_chunk_zero_samples testRng 1234 (by decide)

/-- **C8.** For every seed and every negative sample count,
`work_chunk(sample_count, seed)` fails with an invalid-argument
`ValueError` instead of returning a hit count: for a negative seed it is
`default_rng`'s seed `ValueError` (line 142), otherwise numpy's
negative-dimensions `ValueError` (line 143). -/
theorem work_chunk_negative_raises (rng : Rng) (n seed : ℤ) (hn : n < 0) :
    ∃ msg, work_chunk rng n seed = .error (.valueError msg) := by
  by_cases hs : seed < 0
  · exact ⟨"expected non-negative seed", work_chunk_neg_seed rng n hs⟩
  · exact ⟨"negative dimensions are not allowed",
      work_chunk_neg_n rng (not_lt.1 hs) hn⟩

/-- Witness for C8 at `n = -1`, `seed = 1234`. -/
theorem work_chunk_negative_raises_witness :
    ∃ msg, work_chunk testRng (-1) 1234 = .error (.valueError msg) :=
  work_chunk_negative_raises testRng (-1) 1234 (by decide)

/-- **C3.** Two independent runs of the same configuration yield identical
estimates: `run_pi_estimate` is determined by the behaviour of its random
source together with `(total_samples, num_threads)` alone, and worker `i`
is always assigned the fixed seed `1234 + i`. -/
theorem run_pi_estimate_deterministic (rng₁ rng₂ : Rng)
    (h : ∀ s i, rng₁ s i = rng₂ s i) (total nt : ℤ) :
    run_pi_estimate rng₁ total nt = run_pi_estimate rng₂ total nt ∧
      ∀ i (hi : i < (batches total nt.toNat).length),
        ((batches total nt.toNat).get ⟨i, hi⟩).2 = 1234 + (i : ℤ) := by
  have hrng : rng₁ = rng₂ := funext fun s => funext fun i => h s i
  subst hrng
  refine ⟨rfl, ?_⟩
  intro i hi
  rw [List.get_eq_getElem]
  simp [batches]

/-- Witness for C3: two runs of the `(8, 3)` configuration with the same
concrete source agree, and worker 1 has seed `1235`. -/
theorem run_pi_estimate_deterministic_witness :
    run_pi_estimate testRng 8 3 = run_pi_estimate testRng 8 3 ∧
      ((batches 8 (Int.toNat 3)).get ⟨1, by decide⟩).2 = 1234 + (1 : ℤ) :=
  ⟨(run_pi_estimate_deterministic testRng testRng (fun _ _ => rfl) 8 3).1,
    (run_pi_estimate_deterministic testRng testRng (fun _ _ => rfl) 8 3).2 1 (by decide)⟩

/-- **C7.** A run with `worker_count = 1` produces the same hit count as a
single direct call `work_chunk(total_samples, 1234)` with the full budget
and the base seed, and hence (for a positive budget) the same estimate. -/
theorem single_worker_equals_direct_call (rng : Rng) (total : ℤ) (h0 : 0 ≤ total) :
    run_hits rng total 1 = work_chunk rng total 1234 ∧
      (1 ≤ total → ∀ hits : ℕ, work_chunk rng total 1234 = .ok hits →
        run_pi_estimate rng total 1 = .ok (4 * (hits : ℚ) / (total : ℚ))) := by
  refine ⟨run_hits_one rng total, fun h1 hits hok => ?_⟩
  rw [run_pi_estimate, run_hits_one rng total, hok]
  simp [show ¬ total = 0 by omega]

/-- Witness for C7 at `total_samples = 8` with the concrete source
`testRng` (8 samples, 4 hits, estimate 2). -/
theorem single_worker_equals_direct_call_witness :
    run_hits testRng 8 1 = work_chunk testRng 8 1234 ∧
      run_pi_estimate testRng 8 1 = .ok (4 * ((4 : ℕ) : ℚ) / ((8 : ℤ) : ℚ)) :=
  ⟨(single_worker_equals_direct_call testRng 8 (by decide)).1,
    (single_worker_equals_direct_call testRng 8 (by decide)).2 (by decide) 4
      (by with_unfolding_all rfl)⟩

/-- **C10.** Whenever `run_pi_estimate` returns normally on a
configuration with `total_samples ≥ 1` and `worker_count ≥ 1`, the
returned estimate `4 * hits / total_samples` lies in `[0, 4]`. -/
theorem estimate_between_zero_and_four (rng : Rng) (total nt : ℤ) (est : ℚ)
    (h1 : 1 ≤ total) (hnt : 1 ≤ nt)
    (hok : run_pi_estimate rng total nt = .ok est) :
    0 ≤ est ∧ est ≤ 4 := by
  rw [run_pi_estimate] at hok
  cases hh : run_hits rng total nt with
  | error e => rw [hh] at hok; exact absurd hok (by simp)
  | ok hits =>
      rw [hh] at hok
      simp only [if_neg (show ¬ total = 0 by omega), Except.ok.injEq] at hok
      subst hok
      rw [run_hits, if_neg (by omega), if_neg (by omega)] at hh
      have hb := (collect_hits_ok_le hh).2
      have hsum : (batch_sizes total nt.toNat).sum = total :=
        batch_sizes_sum total (by omega)
      have hle : (hits : ℤ) ≤ total := by
        calc (hits : ℤ) ≤ ((batches total nt.toNat).map Prod.fst).sum := hb
        _ = total := hsum
      have htotQ : (0 : ℚ) < (total : ℚ) := by exact_mod_cast (by omega : (0 : ℤ) < total)
      have hhitsQ : ((hits : ℕ) : ℚ) ≤ (total : ℚ) := by exact_mod_cast hle
      constructor
      · apply div_nonneg _ (le_of_lt htotQ)
        positivity
      · rw [div_le_iff₀ htotQ]
        linarith

/-- Witness for C10 at the `(8, 3)` configuration with the concrete source
`testRng`, whose estimate is `1/2`. -/
theorem estimate_between_zero_and_four_witness :
    0 ≤ (1/2 : ℚ) ∧ (1/2 : ℚ) ≤ 4 :=
  estimate_between_zero_and_four testRng 8 3 (1/2) (by decide) (by decide)
    (by with_unfolding_all rfl)

lemma batches_zero_fst {wc : ℕ} : ∀ b ∈ batches 0 wc, b.1 = 0 := by
  intro b hb
  simp only [batches, List.mem_map, List.mem_range] at hb
  obtain ⟨i, -, rfl⟩ := hb
  rw [Int.zero_fdiv, Int.zero_fmod, if_neg (by omega)]
  rfl

/-- **C2 (amended).** For `total_samples = 0` and any `worker_count ≥ 1`,
every worker does return hit count 0, but the estimate computation
`4.0 * hits / total_samples` raises `ZeroDivisionError` instead of
reporting the estimate as NaN. -/
theorem run_zero_total_raises (rng : Rng) (wc : ℤ) (hwc : 1 ≤ wc) :
    (∀ b ∈ batches 0 wc.toNat, work_chunk rng b.1 b.2 = .ok 0) ∧
      run_hits rng 0 wc = .ok 0 ∧
      run_pi_estimate rng 0 wc = .error .zeroDivisionError := by
  have hworkers : ∀ b ∈ batches 0 wc.toNat, work_chunk rng b.1 b.2 = .ok 0 := by
    intro b hb
    rw [batches_zero_fst b hb]
    exact work_chunk_zero_ok rng (batches_snd_nonneg 0 wc.toNat b hb)
  have hhits : run_hits rng 0 wc = .ok 0 := by
    rw [run_hits, if_neg (by omega), if_neg (by omega)]
    exact collect_hits_zero batches_zero_fst (batches_snd_nonneg 0 wc.toNat)
  refine ⟨hworkers, hhits, ?_⟩
  rw [run_pi_estimate, hhits]
  simp

/-- Counterexample to C2 as stated: on `{total_samples = 0,
worker_count = 4}` the estimate computation does raise a
division-by-zero error. -/
theorem run_zero_total_raises_cex :
    run_pi_estimate testRng 0 4 = .error .zeroDivisionError := rfl

/-- Witness for the amended C2 at `worker_count = 4`. -/
theorem run_zero_total_raises_witness :
    (∀ b ∈ batches 0 (Int.toNat 4), work_chunk testRng b.1 b.2 = .ok 0) ∧
      run_hits testRng 0 4 = .ok 0 ∧
      run_pi_estimate testRng 0 4 = .error .zeroDivisionError :=
  run_zero_total_raises testRng 4 (by decide)

/-- **C4 (amended).** A failing grid cell aborts the whole benchmark: the
grid loop has no per-cell exception handler, so the first cell whose
`run_pi_estimate` raises propagates its exception and none of the
remaining cells is executed. -/
theorem benchmark_cell_failure_aborts (rng : Rng) (t n : ℤ)
    (rest : List (ℤ × ℤ)) (e : PyErr)
    (hfail : run_pi_estimate rng t n = .error e) :
    benchmark_run rng ((t, n) :: rest) = ([], some e) := by
  rw [benchmark_run, hfail]

/-- Counterexample to C4 as stated: in a grid whose first cell
`(-1, 4)` fails with a worker exception, the loop does not continue — the
later cell `(8, 3)` produces no observation. -/
theorem benchmark_cell_failure_aborts_cex :
    benchmark_run testRng [(-1, 4), (8, 3)] =
      ([], some (.valueError "negative dimensions are not allowed")) := rfl

/-- Witness for the amended C4 on the grid `[(0, 2), (3, 1)]`, whose first
cell raises `ZeroDivisionError`. -/
theorem benchmark_cell_failure_aborts_witness :
    benchmark_run testRng [(0, 2), (3, 1)] = ([], some .zeroDivisionError) :=
  benchmark_cell_failure_aborts testRng 0 2 [(3, 1)] .zeroDivisionError rfl

lemma batch_sizes_nonneg {total : ℤ} (h0 : 0 ≤ total) (wc : ℕ) :
    ∀ a ∈ batch_sizes total wc, 0 ≤ a := by
  intro a ha
  have hd := Int.fdiv_nonneg h0 (Int.natCast_nonneg wc)
  rcases batch_sizes_mem ha with h | h <;> omega

lemma run_ok_of_pos {rng : Rng} {total nt : ℤ} (h1 : 1 ≤ total) (hnt : 1 ≤ nt) :
    ∃ est, run_pi_estimate rng total nt = .ok est := by
  have hbs : ∀ b ∈ batches total nt.toNat, 0 ≤ b.1 := fun b hb =>
    batch_sizes_nonneg (by omega) nt.toNat b.1 (List.mem_map_of_mem Prod.fst hb)
  obtain ⟨hits, hh⟩ :=
    collect_hits_ok_of_nonneg hbs (batches_snd_nonneg total nt.toNat)
  refine ⟨4 * (hits : ℚ) / (total : ℚ), ?_⟩
  rw [run_pi_estimate, run_hits, if_neg (by omega), if_neg (by omega), hh]
  simp [show ¬ total = 0 by omega]

lemma exists_neg_batch {total : ℤ} (hneg : total < 0) {wc : ℕ} (hwc : 1 ≤ wc) :
    ∃ b ∈ batches total wc, b.1 < 0 := by
  by_contra hcon
  push_neg at hcon
  have hnn : 0 ≤ (batch_sizes total wc).sum := by
    apply List.sum_nonneg
    intro a ha
    obtain ⟨b, hb, rfl⟩ := List.mem_map.mp ha
    exact hcon b hb
  rw [batch_sizes_sum total hwc] at hnn
  omega

/-- **C9 (amended).** A configuration with `1 ≤ total_samples <
worker_count` is valid and succeeds (workers with 0 samples are fine);
`worker_count < 1` fails before any worker is dispatched; but
`total_samples < 0` with `worker_count ≥ 1` does *not* fail fast: the
batches are dispatched and the failure is a worker's `ValueError` during
execution.  (`total_samples = 0` fails too, with `ZeroDivisionError` at
the estimate — see the C2 theorems.) -/
theorem config_validity_behaviour (rng : Rng) (total wc : ℤ) :
    (1 ≤ total → total < wc → ∃ est, run_pi_estimate rng total wc = .ok est) ∧
      (wc < 1 → dispatched_batches total wc = none) ∧
      (total < 0 → 1 ≤ wc →
        dispatched_batches total wc ≠ none ∧
          ∃ e, run_pi_estimate rng total wc = .error e) := by
  refine ⟨fun h1 h2 => run_ok_of_pos h1 (by omega), fun hlt => ?_,
    fun hneg hwc => ⟨?_, ?_⟩⟩
  · rw [dispatched_batches, if_pos (by omega)]
  · rw [dispatched_batches, if_neg (by omega)]
    simp
  · obtain ⟨b, hb, hbneg⟩ := exists_neg_batch hneg (by omega : 1 ≤ wc.toNat)
    obtain ⟨e, he⟩ := collect_hits_error_of_neg ⟨b, hb, hbneg⟩
    refine ⟨e, ?_⟩
    rw [run_pi_estimate, run_hits, if_neg (by omega), if_neg (by omega), he]

/-- Counterexample to C9 as stated: `total_samples = -1`,
`worker_count = 4` dispatches four batches (the last with -1 samples)
before failing with the worker's `ValueError` — not a fail-fast before
dispatch; and `total_samples = 0 < worker_count = 4`, which C9 calls
valid, fails with `ZeroDivisionError`. -/
theorem config_validity_behaviour_cex :
    dispatched_batches (-1) 4 =
        some [(0, 1234), (0, 1235), (0, 1236), (-1, 1237)] ∧
      run_pi_estimate testRng (-1) 4 =
        .error (.valueError "negative dimensions are not allowed") ∧
      run_pi_estimate testRng 0 4 = .error .zeroDivisionError :=
  ⟨rfl, rfl, rfl⟩

/-- Witness for the amended C9 at `(2, 4)`, `(5, 0)` and `(-1, 4)`. -/
theorem config_validity_behaviour_witness :
    (∃ est, run_pi_estimate testRng 2 4 = .ok est) ∧
      dispatched_batches 5 0 = none ∧
      (dispatched_batches (-1) 4 ≠ none ∧
        ∃ e, run_pi_estimate testRng (-1) 4 = .error e) :=
  ⟨(config_validity_behaviour testRng 2 4).1 (by decide) (by decide),
    (config_validity_behaviour testRng 5 0).2.1 (by decide),
    (config_validity_behaviour testRng (-1) 4).2.2 (by decide) (by decide)⟩

end LoadMonitor
